import Mathlib

/-
Verification of the tokenizer state machine of the quark repository
(src/lexer.rs).  The Rust code is embedded shallowly: bytes are `Nat`
(u8 values), the mutable `VecDeque<u8>` byte source is a `List Nat`
consumed from the front, the accumulator `String` is a `List Char`
(push appends, pop drops the last character), and the imperative
`while` loop of `process` is a fuel-indexed loop over an explicit
machine configuration.  A `none` result means the fuel ran out; the
relation `ProcessReturns` existentially quantifies the fuel.
-/

namespace Quark

/-- The token vocabulary, mirroring `enum Token` of src/lexer.rs. -/
inductive Token where
  | Identifier
  | Number
  | Plus
  | Minus
  | Equals
  | Asterisk
  | AsteriskAsterisk
  | Percent
  | Ampersand
  | AmpersandAmpersand
  | Pipe
  | PipePipe
  | ForwardSlash
  | PlusEquals
  | MinusEquals
  | EqualsEquals
  | AsteriskEquals
  | ForwardSlashEquals
  | ForwardSlashForwardSlash
  | PlusPlus
  | MinusMinus
  | LeftParenthesis
  | RightParenthesis
  | LeftBracket
  | RightBracket
  | LeftBrace
  | RightBrace
  | LeftCaret
  | RightCaret
  | LeftCaretLeftCaret
  | RightCaretRightCaret
  | LeftCaretEquals
  | RightCaretEquals
  | Semicolon
  | ColonColon
  | IntegerLiteral
  | FloatLiteral
  | CharLiteral
  deriving DecidableEq, Repr

/-- One recognized unit, mirroring `struct Lexeme` of src/lexer.rs. -/
structure Lexeme where
  line_number : Nat
  token : Token
  value : Option String
  deriving DecidableEq, Repr

/-- The scanner mode, mirroring `enum LexerState` of src/lexer.rs
(including the source's spelling `Exponentional`). -/
inductive LexerState where
  | Overall
  | Identifier
  | WholeNumber
  | Decimal
  | Exponentional
  | Literal
  | Operator
  deriving DecidableEq, Repr

/-- `fn is_letter`: ASCII `a`..=`z` or `A`..=`Z`. -/
def is_letter (c : Nat) : Bool :=
  (97 ≤ c && c ≤ 122) || (65 ≤ c && c ≤ 90)

/-- `u8::is_ascii_digit`: ASCII `0`..=`9`. -/
def is_ascii_digit (c : Nat) : Bool :=
  48 ≤ c && c ≤ 57

/-- `fn is_number`: delegates to `is_ascii_digit`. -/
def is_number (c : Nat) : Bool :=
  is_ascii_digit c

/-- `fn is_start_of_identifier`: a letter. -/
def is_start_of_identifier (c : Nat) : Bool :=
  is_letter c

/-- `fn is_valid_in_identifier`: letter, digit or underscore. -/
def is_valid_in_identifier (c : Nat) : Bool :=
  is_letter c || is_number c || c == 95

/-- `fn is_whitespace`: space or tab. -/
def is_whitespace (c : Nat) : Bool :=
  c == 32 || c == 9

/-- `fn is_operator`: the operator-character set of src/lexer.rs. -/
def is_operator (c : Nat) : Bool :=
  c == 123 || c == 125 || c == 91 || c == 93 || c == 40 || c == 41 ||
  c == 43 || c == 45 || c == 61 || c == 42 || c == 47 || c == 38 ||
  c == 124 || c == 46 || c == 60 || c == 62 || c == 94 || c == 58 ||
  c == 59

/-- `fn string_to_operator`: the authoritative operator lookup table of
src/lexer.rs, with the match arms in source order.  The accumulator is a
`List Char`. -/
def string_to_operator (str : List Char) : Option Token :=
  if str = ['+', '='] then some Token.PlusEquals
  else if str = ['-', '='] then some Token.MinusEquals
  else if str = ['*', '='] then some Token.AsteriskEquals
  else if str = ['/', '='] then some Token.ForwardSlashEquals
  else if str = ['=', '='] then some Token.EqualsEquals
  else if str = ['+'] then some Token.Plus
  else if str = ['-'] then some Token.Minus
  else if str = ['+', '+'] then some Token.PlusPlus
  else if str = ['-', '-'] then some Token.MinusMinus
  else if str = ['*'] then some Token.Asterisk
  else if str = ['*', '*'] then some Token.AsteriskAsterisk
  else if str = ['&'] then some Token.Ampersand
  else if str = ['&', '&'] then some Token.AmpersandAmpersand
  else if str = ['|'] then some Token.Pipe
  else if str = ['|', '|'] then some Token.PipePipe
  else if str = ['%'] then some Token.Percent
  else if str = ['/'] then some Token.ForwardSlash
  else if str = ['='] then some Token.Equals
  else if str = ['('] then some Token.LeftParenthesis
  else if str = [')'] then some Token.RightParenthesis
  else if str = [Char.ofNat 123] then some Token.LeftBracket
  else if str = [Char.ofNat 125] then some Token.RightBracket
  else if str = ['['] then some Token.LeftBrace
  else if str = [']'] then some Token.RightBrace
  else if str = ['<'] then some Token.LeftCaret
  else if str = ['>'] then some Token.RightCaret
  else if str = [';'] then some Token.Semicolon
  else if str = [':', ':'] then some Token.ColonColon
  else none

/-- The `Debug` rendering of a `LexerState`, used in the
`Expected lexer state to be empty` error message. -/
def lexerStateName : LexerState → String
  | .Overall => "Overall"
  | .Identifier => "Identifier"
  | .WholeNumber => "WholeNumber"
  | .Decimal => "Decimal"
  | .Exponentional => "Exponentional"
  | .Literal => "Literal"
  | .Operator => "Operator"

/-- The mutable state of one `process` call: the remaining byte source,
the current `LexerState`, the line counter, the text accumulator and the
lexemes emitted so far. -/
structure Config where
  bytes : List Nat
  state : LexerState
  line_number : Nat
  value : List Char
  lexemes : List Lexeme
  deriving DecidableEq, Repr

/-- The outcome of one iteration of the `while` loop of `process`:
continue with an updated configuration, return early with an error
string, or `break` out of the loop. -/
inductive StepRes where
  | cont (c : Config)
  | errRes (e : String)
  | brk
  deriving DecidableEq, Repr

/-- `VecDeque::pop_front`. -/
def popFront : List Nat → Option (Nat × List Nat)
  | [] => none
  | b :: rest => some (b, rest)

/-- One iteration of the `while !bytes.is_empty()` loop body of
`fn process` in src/lexer.rs, translated arm by arm. -/
def processStep (c : Config) : StepRes :=
  match c.bytes.head? with
  | none => .errRes "We shouldn\x27t really get here?"
  | some byte =>
    match c.state with
    | .Overall =>
      if byte = 10 then
        .cont { c with line_number := c.line_number + 1, bytes := c.bytes.tail }
      else if is_whitespace byte then
        .cont { c with bytes := c.bytes.tail }
      else if is_start_of_identifier byte then
        .cont { c with state := .Identifier }
      else if byte = 0 then
        .brk
      else
        -- pop the byte, peek the next one, push the byte back
        let current := byte
        let rest := c.bytes.tail
        match rest.head? with
        | some lookahead =>
          if is_ascii_digit lookahead then
            .cont { c with bytes := current :: rest, state := .WholeNumber }
          else
            .cont { c with bytes := current :: rest, state := .Operator }
        | none =>
          .cont { c with bytes := current :: rest, state := .Operator }
    | .Identifier =>
      if is_valid_in_identifier byte then
        .cont { c with value := c.value ++ [Char.ofNat byte], bytes := c.bytes.tail }
      else
        .cont { c with
          state := .Overall
          lexemes := c.lexemes ++
            [⟨c.line_number, Token.Identifier, some (String.mk c.value)⟩]
          value := [] }
    | .Operator =>
      match popFront c.bytes with
      | none => .errRes ("Got an empty operator? Line " ++ toString c.line_number)
      | some (current, rest) =>
        let value1 := c.value ++ [Char.ofNat current]
        let single_op := string_to_operator value1
        match rest.head? with
        | some next =>
          let value2 := value1 ++ [Char.ofNat next]
          match string_to_operator value2 with
          | some t =>
            -- the two-character form matches: consume the peeked byte too
            .cont { c with
              bytes := rest.tail
              state := .Overall
              lexemes := c.lexemes ++ [⟨c.line_number, t, some (String.mk value2)⟩]
              value := [] }
          | none =>
            -- token = single_op; value.pop() undoes the speculative push
            match single_op with
            | some t =>
              .cont { c with
                bytes := rest
                state := .Overall
                lexemes := c.lexemes ++
                  [⟨c.line_number, t, some (String.mk value2.dropLast)⟩]
                value := [] }
            | none =>
              .cont { c with bytes := rest, value := value2.dropLast }
        | none =>
          match single_op with
          | some t =>
            .cont { c with
              bytes := rest
              state := .Overall
              lexemes := c.lexemes ++ [⟨c.line_number, t, some (String.mk value1)⟩]
              value := [] }
          | none =>
            .cont { c with bytes := rest, value := value1 }
    | .WholeNumber =>
      if byte = 45 || byte = 43 then
        if c.value = [] then
          .cont { c with value := c.value ++ [Char.ofNat byte], bytes := c.bytes.tail }
        else
          .errRes ("Unexpected token on line " ++ toString c.line_number ++
            ": " ++ toString byte)
      else if 48 ≤ byte && byte < 57 then
        -- the source's `b'0'..b'9'` is an exclusive range: 57 (digit 9) is excluded
        .cont { c with value := c.value ++ [Char.ofNat byte], bytes := c.bytes.tail }
      else if byte = 46 then
        .cont { c with
          value := c.value ++ [Char.ofNat byte]
          bytes := c.bytes.tail
          state := .Decimal }
      else if byte = 101 || byte = 69 then
        let c1 := { c with value := c.value ++ [Char.ofNat byte], bytes := c.bytes.tail }
        -- only one + or - can occur after e/E
        match c1.bytes.head? with
        | some s =>
          if s = 45 || s = 43 then
            .cont { c1 with
              value := c1.value ++ [Char.ofNat s]
              bytes := c1.bytes.tail
              state := .Exponentional }
          else
            .cont { c1 with state := .Exponentional }
        | none => .cont { c1 with state := .Exponentional }
      else
        .cont { c with
          state := .Overall
          lexemes := c.lexemes ++
            [⟨c.line_number, Token.IntegerLiteral, some (String.mk c.value)⟩]
          value := [] }
    | .Decimal =>
      if 48 ≤ byte && byte < 57 then
        -- exclusive range again: digit 9 is excluded
        .cont { c with value := c.value ++ [Char.ofNat byte], bytes := c.bytes.tail }
      else if byte = 101 || byte = 69 then
        let c1 := { c with value := c.value ++ [Char.ofNat byte], bytes := c.bytes.tail }
        -- only one + or - can occur after e/E
        match c1.bytes.head? with
        | some s =>
          if s = 45 || s = 43 then
            .cont { c1 with
              value := c1.value ++ [Char.ofNat s]
              bytes := c1.bytes.tail
              state := .Exponentional }
          else
            .cont { c1 with state := .Exponentional }
        | none => .cont { c1 with state := .Exponentional }
      else
        .cont { c with
          state := .Overall
          lexemes := c.lexemes ++
            [⟨c.line_number, Token.FloatLiteral, some (String.mk c.value)⟩]
          value := [] }
    | .Exponentional =>
      if 48 ≤ byte && byte ≤ 57 then
        .cont { c with value := c.value ++ [Char.ofNat byte], bytes := c.bytes.tail }
      else
        .cont { c with
          state := .Overall
          lexemes := c.lexemes ++
            [⟨c.line_number, Token.FloatLiteral, some (String.mk c.value)⟩]
          value := [] }
    | .Literal => .errRes "Internal parsing error."

/-- The post-loop check of `fn process`: any state other than `Overall`
at the end of the input is an error. -/
def finishProcess (c : Config) : Except String (List Lexeme) :=
  if c.state ≠ LexerState.Overall then
    .error ("Expected lexer state to be empty: " ++ lexerStateName c.state)
  else
    .ok c.lexemes

/-- The `while !bytes.is_empty()` loop of `fn process`, indexed by fuel.
`none` means the fuel was exhausted.  The final configuration is returned
alongside the result, since the caller of the Rust function observes the
mutated deque. -/
def processLoop : Nat → Config → Option (Except String (List Lexeme) × Config)
  | 0, c =>
    if c.bytes.isEmpty then some (finishProcess c, c) else none
  | fuel + 1, c =>
    if c.bytes.isEmpty then some (finishProcess c, c)
    else
      match processStep c with
      | .cont c' => processLoop fuel c'
      | .errRes e => some (.error e, c)
      | .brk => some (finishProcess c, c)

/-- `fn process`, with explicit fuel: the machine starts in `Overall`
at line 1 with an empty accumulator and no lexemes. -/
def process (fuel : Nat) (bytes : List Nat) :
    Option (Except String (List Lexeme) × Config) :=
  processLoop fuel ⟨bytes, .Overall, 1, [], []⟩

/-- `process bytes` evaluates to `r` for some amount of fuel (the loop
terminates with result `r`). -/
def ProcessReturns (bytes : List Nat) (r : Except String (List Lexeme)) : Prop :=
  ∃ fuel c, process fuel bytes = some (r, c)

/-! ### Sanity checks: the spec's positive examples evaluate as stated -/

example : process 10 [49, 50, 51, 0] =
    some (.ok [⟨1, Token.IntegerLiteral, some "123"⟩],
      ⟨[0], .Overall, 1, [], [⟨1, Token.IntegerLiteral, some "123"⟩]⟩) := by
  rfl

example : process 10 [43, 61, 0] =
    some (.ok [⟨1, Token.PlusEquals, some "+="⟩],
      ⟨[0], .Overall, 1, [], [⟨1, Token.PlusEquals, some "+="⟩]⟩) := by
  rfl

example : process 30 [49, 50, 46, 53, 101, 45, 51, 0] =
    some (.ok [⟨1, Token.FloatLiteral, some "12.5e-3"⟩],
      ⟨[0], .Overall, 1, [], [⟨1, Token.FloatLiteral, some "12.5e-3"⟩]⟩) := by
  rfl

/-! ### The operator table on symbolic arguments -/

/-- No entry of the operator table has three or more characters. -/
theorem sto_three_none (a b ch : Char) (rest : List Char) :
    string_to_operator (a :: b :: ch :: rest) = none := by
  simp [string_to_operator]

/-- No entry of the operator table has three or more characters. -/
theorem sto_length_none (v : List Char) (h : 3 ≤ v.length) :
    string_to_operator v = none := by
  rcases v with _ | ⟨a, _ | ⟨b, _ | ⟨ch, r⟩⟩⟩
  · simp at h
  · simp at h
  · simp at h
  · exact sto_three_none a b ch r

/-- The first characters of the entries of the operator table. -/
def opInitials : List Char :=
  ['+', '-', '*', '/', '=', '&', '|', '%', '(', ')',
   Char.ofNat 123, Char.ofNat 125, '[', ']', '<', '>', ';', ':']

/-- A string whose first character starts no table entry matches nothing. -/
theorem sto_head_none (ch : Char) (cs : List Char) (hc : ch ∉ opInitials) :
    string_to_operator (ch :: cs) = none := by
  simp only [opInitials, List.mem_cons, not_or] at hc
  obtain ⟨h1, h2, h3, h4, h5, h6, h7, h8, h9, h10, h11, h12, h13, h14, h15,
    h16, h17, h18, -⟩ := hc
  simp [string_to_operator, h1, h2, h3, h4, h5, h6, h7, h8, h9, h10, h11, h12,
    h13, h14, h15, h16, h17, h18]

/-- An accumulator that received the NUL byte matches no table entry. -/
theorem sto_append_nul (v : List Char) :
    string_to_operator (v ++ [Char.ofNat 0]) = none := by
  rcases v with _ | ⟨a, _ | ⟨b, r⟩⟩
  · exact sto_head_none _ _ (by decide)
  · simp [string_to_operator]
  · rw [List.cons_append, List.cons_append]
    exact sto_length_none _ (by simp)

/-- Likewise after one further speculative push. -/
theorem sto_append_nul2 (v : List Char) (ch : Char) :
    string_to_operator (v ++ [Char.ofNat 0] ++ [ch]) = none := by
  rcases v with _ | ⟨a, r⟩
  · exact sto_head_none _ _ (by decide)
  · rw [List.cons_append, List.cons_append]
    exact sto_length_none _ (by simp)

/-! ### Basic lemmas about the loop -/

/-- With an empty byte source the loop body would hit the defensive
`front() = None` branch. -/
theorem processStep_nil (c : Config) (h : c.bytes = []) :
    processStep c = .errRes "We shouldn\x27t really get here?" := by
  unfold processStep
  rw [h]
  rfl

/-- A continuing step can only happen on a non-empty byte source. -/
theorem processStep_cont_ne_nil {c c' : Config} (h : processStep c = .cont c') :
    c.bytes ≠ [] := by
  intro hnil
  rw [processStep_nil c hnil] at h
  exact StepRes.noConfusion h

/-- Unfolding one continuing iteration of the loop. -/
theorem processLoop_cont {c c' : Config} (fuel : Nat)
    (h : processStep c = .cont c') :
    processLoop (fuel + 1) c = processLoop fuel c' := by
  have hne := processStep_cont_ne_nil h
  rw [processLoop, if_neg (by simpa using hne), h]

/-- The loop exits as soon as the byte source is empty, whatever the fuel. -/
theorem processLoop_nil (fuel : Nat) (c : Config) (h : c.bytes = []) :
    processLoop fuel c = some (finishProcess c, c) := by
  cases fuel with
  | zero => rw [processLoop, if_pos (by simpa using h)]
  | succ n => rw [processLoop, if_pos (by simpa using h)]

/-- With a non-empty byte source and no fuel the loop gives up. -/
theorem processLoop_zero (c : Config) (h : c.bytes ≠ []) :
    processLoop 0 c = none := by
  rw [processLoop, if_neg (by simpa using h)]

/-- The loop, started at `c`, terminates with result `r`. -/
def LoopReturns (c : Config) (r : Except String (List Lexeme)) : Prop :=
  ∃ fuel c', processLoop fuel c = some (r, c')

/-- A continuing step preserves the eventual result. -/
theorem LoopReturns.step {c c' : Config} {r : Except String (List Lexeme)}
    (h : processStep c = .cont c') (hr : LoopReturns c' r) : LoopReturns c r := by
  obtain ⟨fuel, cf, hf⟩ := hr
  exact ⟨fuel + 1, cf, by rw [processLoop_cont fuel h]; exact hf⟩

/-- `ProcessReturns` restated through the loop on the initial configuration. -/
theorem ProcessReturns_of_loop {bytes : List Nat} {r : Except String (List Lexeme)}
    (h : LoopReturns ⟨bytes, .Overall, 1, [], []⟩ r) : ProcessReturns bytes r := h

/-! ### C1: termination -/

/-- On the input `"99"` + NUL the machine enters a two-step cycle:
`Overall` dispatches the first `9` to `WholeNumber` (the lookahead `9` is a
digit), and `WholeNumber` — whose digit arm `b'0'..b'9'` is an exclusive
range omitting 57 — flushes an empty `IntegerLiteral` without consuming
anything and returns to `Overall`. -/
theorem processLoop_nine_cycle (fuel : Nat) :
    ∀ lex : List Lexeme,
      processLoop fuel ⟨[57, 57, 0], .Overall, 1, [], lex⟩ = none ∧
      processLoop fuel ⟨[57, 57, 0], .WholeNumber, 1, [], lex⟩ = none := by
  induction fuel with
  | zero =>
    intro lex
    exact ⟨processLoop_zero _ (by simp), processLoop_zero _ (by simp)⟩
  | succ n ih =>
    intro lex
    constructor
    · rw [processLoop_cont n (show processStep ⟨[57, 57, 0], .Overall, 1, [], lex⟩ =
          .cont ⟨[57, 57, 0], .WholeNumber, 1, [], lex⟩ from rfl)]
      exact (ih lex).2
    · rw [processLoop_cont n (show processStep ⟨[57, 57, 0], .WholeNumber, 1, [], lex⟩ =
          .cont ⟨[57, 57, 0], .Overall, 1, [],
            lex ++ [⟨1, Token.IntegerLiteral, some ""⟩]⟩ from rfl)]
      exact (ih _).1

/-- Claim C1: the claim says `process` terminates on every input.  The code
refutes it: on the byte sequence `[57, 57, 0]` (the text `"99"` followed by
the NUL sentinel) the loop never produces a result, no matter how much fuel
it is given — it cycles forever between `Overall` and `WholeNumber`,
emitting empty `IntegerLiteral` lexemes without consuming a byte, because
the exclusive range `b'0'..b'9'` fails to consume the digit `9`. -/
theorem C1_process_never_terminates_on_99 :
    ∀ fuel : Nat, process fuel [57, 57, 0] = none := by
  intro fuel
  exact (processLoop_nine_cycle fuel []).1

/-! ### C2: integer literals -/

/-- Claim C2: the claim says every input of two or more ASCII digits
followed by NUL yields one `IntegerLiteral` carrying the digit string
verbatim.  The code refutes it on `[50, 57, 0]` (the text `"29"` + NUL):
the exclusive digit range of the `WholeNumber` state rejects the digit `9`,
so the literal is flushed early as `IntegerLiteral "2"` and the trailing
`9` is re-dispatched to the `Operator` state, where nothing matches and
the call ends in the unterminated-state error. -/
theorem C2_digit_nine_breaks_integer_literals :
    process 20 [50, 57, 0] =
      some (.error "Expected lexer state to be empty: Operator",
        ⟨[], .Operator, 1, ['9', Char.ofNat 0],
          [⟨1, Token.IntegerLiteral, some "2"⟩]⟩) := by
  rfl

/-! ### C3: two-character operators -/

/-- Claim C3: the claim says every two-character operator of the table —
including `<=`, `>=`, `<<` and `>>` — lexes as one maximal-munch lexeme.
The code refutes it: `string_to_operator` has no entry for `<=`, `>=`,
`<<` or `>>` (although `Token` declares `LeftCaretEquals`,
`RightCaretEquals`, `LeftCaretLeftCaret` and `RightCaretRightCaret` for
exactly these), so the input `"<="` + NUL lexes as the two one-character
lexemes `LeftCaret "<"` and `Equals "="`. -/
theorem C3_caret_operators_missing_from_table :
    string_to_operator ['<', '='] = none ∧
    string_to_operator ['>', '='] = none ∧
    string_to_operator ['<', '<'] = none ∧
    string_to_operator ['>', '>'] = none ∧
    process 20 [60, 61, 0] =
      some (.ok [⟨1, Token.LeftCaret, some "<"⟩, ⟨1, Token.Equals, some "="⟩],
        ⟨[0], .Overall, 1, [],
          [⟨1, Token.LeftCaret, some "<"⟩, ⟨1, Token.Equals, some "="⟩]⟩) :=
  ⟨rfl, rfl, rfl, rfl, rfl⟩

/-! ### C5: exhaustion outside `Overall` -/

/-- Claim C5: whenever the byte source is exhausted while the machine is in
any state other than `Overall`, `process` returns the unterminated-state
error naming that state — the trailing fragment is never dropped into an
`Ok` result.  In particular the sentinel-less input `"abc"` ends in the
`Identifier` state and errors. -/
theorem C5_exhaustion_in_non_overall_state_errors :
    (∀ (fuel : Nat) (c : Config), c.bytes = [] → c.state ≠ LexerState.Overall →
      processLoop fuel c =
        some (.error ("Expected lexer state to be empty: " ++ lexerStateName c.state),
          c)) ∧
    process 20 [97, 98, 99] =
      some (.error "Expected lexer state to be empty: Identifier",
        ⟨[], .Identifier, 1, ['a', 'b', 'c'], []⟩) := by
  constructor
  · intro fuel c hb hs
    rw [processLoop_nil fuel c hb]
    unfold finishProcess
    rw [if_pos hs]
  · rfl

/-- Witness for C5, instantiating the universally quantified part at a
concrete exhausted configuration in the `WholeNumber` state. -/
theorem C5_witness :
    processLoop 0 ⟨[], .WholeNumber, 1, [], []⟩ =
      some (.error "Expected lexer state to be empty: WholeNumber",
        ⟨[], .WholeNumber, 1, [], []⟩) :=
  C5_exhaustion_in_non_overall_state_errors.1 0 ⟨[], .WholeNumber, 1, [], []⟩ rfl
    (by decide)

/-! ### C4: unmatched operators -/

/-- Counterexample for claim C4: the claim says that on the input
`"^ "` + NUL the call fails immediately with an `UnrecognizedOperator`
error carrying the line number and the text `"^"`.  In fact the `Operator`
state raises no error at all when nothing matches: it silently keeps
consuming, and the call ends with the unterminated-state error — whose
message contains neither the offending character `^` nor the digit `1`. -/
theorem C4_counterexample :
    process 20 [94, 32, 0] =
      some (.error "Expected lexer state to be empty: Operator",
        ⟨[], .Operator, 1, ['^', ' ', Char.ofNat 0], []⟩) ∧
    '^' ∉ "Expected lexer state to be empty: Operator".data ∧
    '1' ∉ "Expected lexer state to be empty: Operator".data := by
  exact ⟨rfl, by decide, by decide⟩

/-- Claim C4, amended: when the `Operator` state finds that neither the
one-character accumulated string nor its two-character extension matches
the table, `process` does not fail at that point — no lexeme is emitted,
the byte is consumed into the accumulator, and the machine stays in the
`Operator` state; the failure only surfaces at end of input as the
unterminated-state error.  In particular `"^ "` + NUL returns
`Err "Expected lexer state to be empty: Operator"`. -/
theorem C4_unmatched_operator_raises_no_error :
    (∀ (c : Config) (cur : Nat) (rest : List Nat),
      c.bytes = cur :: rest →
      c.state = LexerState.Operator →
      string_to_operator (c.value ++ [Char.ofNat cur]) = none →
      (∀ nxt, rest.head? = some nxt →
        string_to_operator (c.value ++ [Char.ofNat cur] ++ [Char.ofNat nxt]) = none) →
      processStep c =
        .cont { c with bytes := rest, value := c.value ++ [Char.ofNat cur] }) ∧
    ProcessReturns [94, 32, 0] (.error "Expected lexer state to be empty: Operator") := by
  constructor
  · intro c cur rest hb hs hsingle hdouble
    obtain ⟨bs, st, ln, v, lx⟩ := c
    simp only at hb hs hsingle hdouble ⊢
    subst hb
    subst hs
    cases hr : rest.head? with
    | none =>
      simp only [processStep, List.head?_cons, popFront, hr, hsingle]
    | some nxt =>
      have hd := hdouble nxt hr
      simp only [processStep, List.head?_cons, popFront, hr, hd, hsingle,
        List.dropLast_concat]
  · exact ⟨20, ⟨[], .Operator, 1, ['^', ' ', Char.ofNat 0], []⟩, rfl⟩

/-- Witness for the amended C4, at the configuration reached from the
input `"^ "` + NUL right after `Overall` dispatches `^` to the `Operator`
state. -/
theorem C4_witness :
    processStep ⟨[94, 32, 0], .Operator, 1, [], []⟩ =
      .cont ⟨[32, 0], .Operator, 1, ['^'], []⟩ :=
  C4_unmatched_operator_raises_no_error.1 ⟨[94, 32, 0], .Operator, 1, [], []⟩ 94
    [32, 0] rfl rfl (by decide)
    (by intro nxt h; rw [List.head?_cons] at h; injection h with h2; subst h2; decide)

/-! ### Monotonicity and determinism of the fuelled loop -/

/-- Once the loop terminates, more fuel does not change the outcome. -/
theorem processLoop_mono : ∀ (fuel fuel' : Nat) (c : Config)
    (out : Except String (List Lexeme) × Config), fuel ≤ fuel' →
    processLoop fuel c = some out → processLoop fuel' c = some out := by
  intro fuel
  induction fuel with
  | zero =>
    intro fuel' c out _ hl
    by_cases hb : c.bytes = []
    · rw [processLoop_nil _ _ hb] at hl
      rw [processLoop_nil _ _ hb]
      exact hl
    · rw [processLoop_zero c hb] at hl
      cases hl
  | succ n ih =>
    intro fuel' c out hle hl
    by_cases hb : c.bytes = []
    · rw [processLoop_nil _ _ hb] at hl
      rw [processLoop_nil _ _ hb]
      exact hl
    · obtain ⟨m, rfl⟩ : ∃ m, fuel' = m + 1 := ⟨fuel' - 1, by omega⟩
      rw [processLoop, if_neg (by simpa using hb)] at hl ⊢
      cases hs : processStep c with
      | cont c2 =>
        rw [hs] at hl
        exact ih m c2 out (by omega) hl
      | errRes e =>
        rw [hs] at hl
        exact hl
      | brk =>
        rw [hs] at hl
        exact hl

/-- The loop result is unique: the fuel is an artifact of the embedding. -/
theorem ProcessReturns_unique {bytes : List Nat} {r r' : Except String (List Lexeme)}
    (h : ProcessReturns bytes r) (h' : ProcessReturns bytes r') : r = r' := by
  obtain ⟨f1, c1, h1⟩ := h
  obtain ⟨f2, c2, h2⟩ := h'
  rcases Nat.le_total f1 f2 with hle | hle
  · have h3 := processLoop_mono f1 f2 _ _ hle h1
    have h4 := Option.some.inj (h3.symm.trans h2)
    exact congrArg Prod.fst h4
  · have h3 := processLoop_mono f2 f1 _ _ hle h2
    have h4 := Option.some.inj (h3.symm.trans h1)
    exact (congrArg Prod.fst h4).symm

/-! ### C6: identifiers -/

/-- Running the `Identifier` state over a run of identifier-continue bytes
followed by the NUL sentinel accumulates the bytes verbatim, flushes one
`Identifier` lexeme and stops at the sentinel. -/
theorem identifier_run (tl : List Nat) :
    ∀ (acc : List Char) (lex : List Lexeme) (ln : Nat),
      (∀ x ∈ tl, is_valid_in_identifier x = true) →
      LoopReturns ⟨tl ++ [0], .Identifier, ln, acc, lex⟩
        (.ok (lex ++
          [⟨ln, Token.Identifier, some (String.mk (acc ++ tl.map Char.ofNat))⟩])) := by
  induction tl with
  | nil =>
    intro acc lex ln _
    simp only [List.map_nil, List.append_nil, List.nil_append]
    refine LoopReturns.step (show processStep ⟨[0], .Identifier, ln, acc, lex⟩ =
      .cont ⟨[0], .Overall, ln, [],
        lex ++ [⟨ln, Token.Identifier, some (String.mk acc)⟩]⟩ from rfl) ?_
    exact ⟨1, _, rfl⟩
  | cons x tl ih =>
    intro acc lex ln hv
    have hx : is_valid_in_identifier x = true := hv x (List.mem_cons_self x tl)
    have hstep : processStep ⟨(x :: tl) ++ [0], .Identifier, ln, acc, lex⟩ =
        .cont ⟨tl ++ [0], .Identifier, ln, acc ++ [Char.ofNat x], lex⟩ := by
      simp [processStep, hx]
    refine LoopReturns.step hstep ?_
    have hrec := ih (acc ++ [Char.ofNat x]) lex ln
      (fun y hy => hv y (List.mem_cons_of_mem x hy))
    simpa [List.append_assoc] using hrec

/-- Claim C6: for every input matching `[A-Za-z][A-Za-z0-9_]*` followed by
the NUL sentinel, `process` returns `Ok` with exactly one lexeme, of kind
`Identifier`, whose value is the matched text verbatim. -/
theorem C6_identifier_verbatim :
    ∀ (b : Nat) (tl : List Nat),
      is_start_of_identifier b = true →
      (∀ x ∈ tl, is_valid_in_identifier x = true) →
      ProcessReturns ((b :: tl) ++ [0])
        (.ok [⟨1, Token.Identifier, some (String.mk ((b :: tl).map Char.ofNat))⟩]) := by
  intro b tl hb hv
  have hrange : (97 ≤ b ∧ b ≤ 122) ∨ (65 ≤ b ∧ b ≤ 90) := by
    simpa [is_start_of_identifier, is_letter, Bool.or_eq_true, Bool.and_eq_true,
      decide_eq_true_eq] using hb
  have h10 : ¬(b = 10) := by omega
  have hws : is_whitespace b = false := by
    simp only [is_whitespace, Bool.or_eq_false_iff, beq_eq_false_iff_ne, ne_eq]
    omega
  have hstep : processStep ⟨(b :: tl) ++ [0], .Overall, 1, [], []⟩ =
      .cont ⟨(b :: tl) ++ [0], .Identifier, 1, [], []⟩ := by
    simp [processStep, h10, hws, hb]
  have hb' : is_valid_in_identifier b = true := by
    simp only [is_valid_in_identifier, Bool.or_eq_true]
    exact Or.inl (Or.inl hb)
  apply ProcessReturns_of_loop
  refine LoopReturns.step hstep ?_
  have hrun := identifier_run (b :: tl) [] [] 1 (by
    intro y hy
    rcases List.mem_cons.mp hy with h | h
    · exact h ▸ hb'
    · exact hv y h)
  simpa using hrun

/-- Witness for C6 at the identifier `"ab1_"` (bytes `[97, 98, 49, 95]`). -/
theorem C6_witness :
    ProcessReturns [97, 98, 49, 95, 0]
      (.ok [⟨1, Token.Identifier, some "ab1_"⟩]) :=
  C6_identifier_verbatim 97 [98, 49, 95] (by decide) (by decide)

/-! ### C9: a lone digit is routed to the Operator state -/

/-- An ASCII digit starts no entry of the operator table. -/
theorem digitChar_not_opInitial (d : Nat) (h48 : 48 ≤ d) (h57 : d ≤ 57) :
    Char.ofNat d ∉ opInitials := by
  interval_cases d <;> decide

/-- On a two-byte input `[d, x]` with `d` a digit and `x` not a digit, the
`Overall` dispatch sends `d` to the `Operator` state (the lookahead is not
a digit), where neither the one- nor the two-character string matches the
table; the machine silently consumes both bytes and the call ends in the
unterminated-state error. -/
theorem single_digit_stuck (d x : Nat) (h48 : 48 ≤ d) (h57 : d ≤ 57)
    (hx : is_ascii_digit x = false) :
    LoopReturns ⟨[d, x], .Overall, 1, [], []⟩
      (.error "Expected lexer state to be empty: Operator") := by
  have h10 : ¬(d = 10) := by omega
  have h0 : ¬(d = 0) := by omega
  have hws : is_whitespace d = false := by
    simp only [is_whitespace, Bool.or_eq_false_iff, beq_eq_false_iff_ne, ne_eq]
    omega
  have hst : is_start_of_identifier d = false := by
    simp only [is_start_of_identifier, is_letter, Bool.or_eq_false_iff,
      Bool.and_eq_false_iff, decide_eq_false_iff_not]
    omega
  have hs1 : string_to_operator [Char.ofNat d] = none :=
    sto_head_none _ _ (digitChar_not_opInitial d h48 h57)
  have hs2 : string_to_operator [Char.ofNat d, Char.ofNat x] = none :=
    sto_head_none _ _ (digitChar_not_opInitial d h48 h57)
  have s1 : processStep ⟨[d, x], .Overall, 1, [], []⟩ =
      .cont ⟨[d, x], .Operator, 1, [], []⟩ := by
    simp [processStep, h10, hws, hst, h0, hx]
  have s2 : processStep ⟨[d, x], .Operator, 1, [], []⟩ =
      .cont ⟨[x], .Operator, 1, [Char.ofNat d], []⟩ := by
    simp [processStep, popFront, hs1, hs2]
  have s3 : processStep ⟨[x], .Operator, 1, [Char.ofNat d], []⟩ =
      .cont ⟨[], .Operator, 1, [Char.ofNat d, Char.ofNat x], []⟩ := by
    simp [processStep, popFront, hs2]
  refine LoopReturns.step s1 (LoopReturns.step s2 (LoopReturns.step s3 ?_))
  exact ⟨0, _, rfl⟩

/-- Claim C9: an input consisting of a single ASCII digit followed by a
non-digit byte is never lexed as an `IntegerLiteral`: the `Overall`
dispatch only enters `WholeNumber` when the lookahead is a digit, so the
lone digit goes to the `Operator` state, matches no table entry, and
`process` returns the unterminated-state error — never `Ok`. -/
theorem C9_lone_digit_never_integer_literal :
    ∀ (d x : Nat), is_ascii_digit d = true → is_ascii_digit x = false →
      ProcessReturns [d, x] (.error "Expected lexer state to be empty: Operator") ∧
      ∀ lexs : List Lexeme, ¬ ProcessReturns [d, x] (.ok lexs) := by
  intro d x hd hx
  have hb : 48 ≤ d ∧ d ≤ 57 := by
    simpa [is_ascii_digit, Bool.and_eq_true, decide_eq_true_eq] using hd
  have herr : ProcessReturns [d, x]
      (.error "Expected lexer state to be empty: Operator") :=
    ProcessReturns_of_loop (single_digit_stuck d x hb.1 hb.2 hx)
  refine ⟨herr, fun lexs hok => ?_⟩
  exact Except.noConfusion (ProcessReturns_unique hok herr)

/-- Witness for C9 at the input `"7"` followed by the NUL byte. -/
theorem C9_witness :
    ProcessReturns [55, 0] (.error "Expected lexer state to be empty: Operator") ∧
    ¬ ProcessReturns [55, 0] (.ok []) :=
  ⟨(C9_lone_digit_never_integer_literal 55 0 (by decide) (by decide)).1,
   (C9_lone_digit_never_integer_literal 55 0 (by decide) (by decide)).2 []⟩

/-! ### C7: line tracking -/

/-- Counterexample for claim C7: the claim says the line counter is
incremented exactly once for each newline byte the tokenizer advances
past.  Starting `process` on the input `"^\n"` + NUL (initial
configuration `⟨[94, 10, 0], Overall, 1, "", []⟩`), the caret is dispatched
to the `Operator` state, which matches nothing, stays in `Operator`, and
on its next iteration consumes the newline byte 10 — removing it from the
byte source while leaving `line_number` at 1. -/
theorem C7_counterexample :
    processStep ⟨[94, 10, 0], .Overall, 1, [], []⟩ =
      .cont ⟨[94, 10, 0], .Operator, 1, [], []⟩ ∧
    processStep ⟨[94, 10, 0], .Operator, 1, [], []⟩ =
      .cont ⟨[10, 0], .Operator, 1, ['^'], []⟩ ∧
    processStep ⟨[10, 0], .Operator, 1, ['^'], []⟩ =
      .cont ⟨[0], .Operator, 1, ['^', '\n'], []⟩ :=
  ⟨rfl, rfl, rfl⟩

/-- Claim C7, amended: the line counter starts at 1 and is incremented
exactly once for each newline byte consumed by the `Overall` dispatch; a
newline byte consumed by the `Operator` state while it accumulates an
unmatched operator does not increment it.  Every other step leaves the
counter unchanged, emitted lexemes carry the current counter, and the
input `"a\nb"` + NUL yields `Identifier "a"` at line 1 and
`Identifier "b"` at line 2. -/
theorem C7_line_increments_only_in_overall :
    (∀ c c' : Config, processStep c = .cont c' →
      (c.state = LexerState.Overall ∧ c.bytes.head? = some 10 →
        c'.line_number = c.line_number + 1) ∧
      (¬(c.state = LexerState.Overall ∧ c.bytes.head? = some 10) →
        c'.line_number = c.line_number)) ∧
    process 20 [97, 10, 98, 0] =
      some (.ok [⟨1, Token.Identifier, some "a"⟩, ⟨2, Token.Identifier, some "b"⟩],
        ⟨[0], .Overall, 2, [],
          [⟨1, Token.Identifier, some "a"⟩, ⟨2, Token.Identifier, some "b"⟩]⟩) := by
  constructor
  · intro c c' h
    obtain ⟨bs, st, ln, v, lx⟩ := c
    cases bs with
    | nil =>
      rw [processStep_nil _ rfl] at h
      cases h
    | cons b t =>
      cases st with
      | Overall =>
        by_cases hb : b = 10
        · subst hb
          simp only [processStep, List.head?_cons, if_pos rfl] at h
          injection h with h2
          subst h2
          exact ⟨fun _ => rfl, fun hn => absurd ⟨rfl, rfl⟩ hn⟩
        · constructor
          · rintro ⟨-, hhd⟩
            rw [List.head?_cons] at hhd
            injection hhd with hb'
            exact absurd hb' hb
          · intro _
            simp only [processStep, List.head?_cons, if_neg hb] at h
            repeat' split at h
            all_goals first
              | (injection h with h2; subst h2; rfl)
              | (cases h)
      | Identifier =>
        refine ⟨fun h' => LexerState.noConfusion h'.1, fun _ => ?_⟩
        simp only [processStep, List.head?_cons] at h
        repeat' split at h
        all_goals first
          | (injection h with h2; subst h2; rfl)
          | (cases h)
      | WholeNumber =>
        refine ⟨fun h' => LexerState.noConfusion h'.1, fun _ => ?_⟩
        simp only [processStep, List.head?_cons] at h
        repeat' split at h
        all_goals first
          | (injection h with h2; subst h2; rfl)
          | (cases h)
      | Decimal =>
        refine ⟨fun h' => LexerState.noConfusion h'.1, fun _ => ?_⟩
        simp only [processStep, List.head?_cons] at h
        repeat' split at h
        all_goals first
          | (injection h with h2; subst h2; rfl)
          | (cases h)
      | Exponentional =>
        refine ⟨fun h' => LexerState.noConfusion h'.1, fun _ => ?_⟩
        simp only [processStep, List.head?_cons] at h
        repeat' split at h
        all_goals first
          | (injection h with h2; subst h2; rfl)
          | (cases h)
      | Literal =>
        refine ⟨fun h' => LexerState.noConfusion h'.1, fun _ => ?_⟩
        simp only [processStep, List.head?_cons] at h
        cases h
      | Operator =>
        refine ⟨fun h' => LexerState.noConfusion h'.1, fun _ => ?_⟩
        simp only [processStep, List.head?_cons, popFront] at h
        repeat' split at h
        all_goals first
          | (injection h with h2; subst h2; rfl)
          | (cases h)
  · rfl

/-- Witness for the amended C7: a concrete `Overall` step over a newline
increments the counter from 5 to 6. -/
theorem C7_witness :
    (⟨[], .Overall, 6, [], []⟩ : Config).line_number =
      (⟨[10], .Overall, 5, [], []⟩ : Config).line_number + 1 :=
  (C7_line_increments_only_in_overall.1 ⟨[10], .Overall, 5, [], []⟩
    ⟨[], .Overall, 6, [], []⟩ rfl).1 ⟨rfl, rfl⟩

/-! ### C8: the defensive error branches are unreachable -/

/-- Appending strings concatenates their character data. -/
theorem data_append (a b : String) : (a ++ b).data = a.data ++ b.data := by
  cases a
  cases b
  rfl

/-- The first character of an appended string is that of its left part. -/
theorem head_append (a b : String) (ch : Char) (h : a.data.head? = some ch) :
    (a ++ b).data.head? = some ch := by
  rw [data_append]
  cases ha : a.data with
  | nil => rw [ha] at h; cases h
  | cons x tl =>
    rw [ha] at h
    simpa using h

/-- Strings with different first characters are different. -/
theorem ne_of_head {a b : String} {ca cb : Char} (ha : a.data.head? = some ca)
    (hb : b.data.head? = some cb) (hne : ca ≠ cb) : a ≠ b := by
  intro e
  subst e
  exact hne (Option.some.inj (ha.symm.trans hb))

/-- The `Unexpected token` message starts with `U`. -/
theorem unexpected_head (s t : String) :
    ("Unexpected token on line " ++ s ++ ": " ++ t).data.head? = some 'U' :=
  head_append _ _ _ (head_append _ _ _ (head_append _ _ _ rfl))

/-- The `Got an empty operator?` message starts with `G`. -/
theorem got_head (s : String) :
    ("Got an empty operator? Line " ++ s).data.head? = some 'G' :=
  head_append _ _ _ rfl

/-- The `Expected lexer state to be empty` message starts with `E`. -/
theorem expected_head (s : String) :
    ("Expected lexer state to be empty: " ++ s).data.head? = some 'E' :=
  head_append _ _ _ rfl

/-- On a non-empty byte source, the only early-return errors a loop
iteration can produce are the `Unexpected token` sign error of the number
states and the `Internal parsing error.` of the dead `Literal` arm — never
the two defensive messages. -/
theorem processStep_err_shape (c : Config) (e : String) (hb : c.bytes ≠ [])
    (h : processStep c = .errRes e) :
    (∃ s t : String, e = "Unexpected token on line " ++ s ++ ": " ++ t) ∨
    e = "Internal parsing error." := by
  obtain ⟨bs, st, ln, v, lx⟩ := c
  cases bs with
  | nil => exact absurd rfl hb
  | cons b t =>
    cases st
    all_goals simp only [processStep, List.head?_cons, popFront] at h
    all_goals repeat' split at h
    all_goals first
      | (injection h with h2; exact Or.inl ⟨toString ln, toString b, h2.symm⟩)
      | (injection h with h2; exact Or.inr h2.symm)
      | (cases h)

/-- The post-loop check never produces the defensive messages either. -/
theorem finish_not_defensive (c : Config) :
    finishProcess c ≠ .error "We shouldn\x27t really get here?" ∧
    ∀ n : Nat,
      finishProcess c ≠ .error ("Got an empty operator? Line " ++ toString n) := by
  unfold finishProcess
  split_ifs with hst
  · constructor
    · intro hco
      injection hco with h3
      exact (ne_of_head (expected_head _)
        (show ("We shouldn\x27t really get here?" : String).data.head? = some 'W'
          from rfl) (by decide)) h3
    · intro m hco
      injection hco with h3
      exact (ne_of_head (expected_head _) (got_head _) (by decide)) h3
  · exact ⟨fun hco => Except.noConfusion hco, fun m hco => Except.noConfusion hco⟩

/-- No terminating run of the loop ever returns one of the two defensive
error messages: within the loop the byte source is never empty when the
body runs, so `front()` and the `Operator` pop always succeed. -/
theorem processLoop_no_defensive_error : ∀ (fuel : Nat) (c : Config)
    (out : Except String (List Lexeme) × Config),
    processLoop fuel c = some out →
    out.1 ≠ .error "We shouldn\x27t really get here?" ∧
    ∀ n : Nat, out.1 ≠ .error ("Got an empty operator? Line " ++ toString n) := by
  intro fuel
  induction fuel with
  | zero =>
    intro c out hl
    by_cases hb : c.bytes = []
    · rw [processLoop_nil _ _ hb] at hl
      injection hl with h2
      subst h2
      exact finish_not_defensive c
    · rw [processLoop_zero c hb] at hl
      cases hl
  | succ n ih =>
    intro c out hl
    by_cases hb : c.bytes = []
    · rw [processLoop_nil _ _ hb] at hl
      injection hl with h2
      subst h2
      exact finish_not_defensive c
    · rw [processLoop, if_neg (by simpa using hb)] at hl
      cases hs : processStep c with
      | cont c2 =>
        rw [hs] at hl
        exact ih c2 out hl
      | errRes e =>
        rw [hs] at hl
        injection hl with h2
        subst h2
        rcases processStep_err_shape c e hb hs with ⟨s, t, rfl⟩ | rfl
        · constructor
          · intro hco
            injection hco with h3
            exact (ne_of_head (unexpected_head s t)
              (show ("We shouldn\x27t really get here?" : String).data.head? =
                some 'W' from rfl) (by decide)) h3
          · intro m hco
            injection hco with h3
            exact (ne_of_head (unexpected_head s t) (got_head _) (by decide)) h3
        · constructor
          · intro hco
            injection hco with h3
            exact absurd h3 (by decide)
          · intro m hco
            injection hco with h3
            exact (ne_of_head (show ("Internal parsing error." : String).data.head? =
              some 'I' from rfl) (got_head _) (by decide)) h3
      | brk =>
        rw [hs] at hl
        injection hl with h2
        subst h2
        exact finish_not_defensive c

/-- Claim C8: `process` never panics — in the embedding it is a total
function — and its two defensive error branches (`front()` returning
`None` inside the non-empty loop, and the `Operator` state popping from an
empty source) are unreachable: no terminating run, on any input, returns
either defensive message. -/
theorem C8_defensive_branches_unreachable :
    ∀ (fuel : Nat) (input : List Nat) (out : Except String (List Lexeme) × Config),
      process fuel input = some out →
      out.1 ≠ .error "We shouldn\x27t really get here?" ∧
      ∀ n : Nat, out.1 ≠ .error ("Got an empty operator? Line " ++ toString n) := by
  intro fuel input out h
  exact processLoop_no_defensive_error fuel _ out h

/-- Witness for C8 at the one-byte input `[0]`, whose run returns `Ok []`. -/
theorem C8_witness :
    (Except.ok ([] : List Lexeme) : Except String (List Lexeme)) ≠
      .error "We shouldn\x27t really get here?" :=
  (C8_defensive_branches_unreachable 1 [0] (.ok [], ⟨[0], .Overall, 1, [], []⟩)
    rfl).1

/-! ### C10: on success, scanning stops at the first NUL -/

/-- A loop that ends with an empty byte source in the `Operator` state
reports the unterminated-state error. -/
theorem loop_finish_operator (fuel : Nat) (c : Config)
    (res : Except String (List Lexeme)) (c' : Config)
    (hst : c.state = LexerState.Operator) (hb : c.bytes = [])
    (hl : processLoop fuel c = some (res, c')) : ∃ e, res = .error e := by
  rw [processLoop_nil _ _ hb] at hl
  injection hl with h2
  injection h2 with hr hc
  refine ⟨"Expected lexer state to be empty: " ++ lexerStateName c.state, ?_⟩
  rw [← hr]
  unfold finishProcess
  rw [if_pos (by rw [hst]; exact fun hco => LexerState.noConfusion hco)]

/-- Once the `Operator` accumulator holds two or more characters, no table
entry can ever match again, so the run can only end in an error. -/
theorem opDead2 : ∀ (fuel : Nat) (c : Config)
    (res : Except String (List Lexeme)) (c' : Config),
    c.state = LexerState.Operator → 2 ≤ c.value.length →
    processLoop fuel c = some (res, c') → ∃ e, res = .error e := by
  intro fuel
  induction fuel with
  | zero =>
    intro c res c' hst hlen hl
    by_cases hb : c.bytes = []
    · exact loop_finish_operator 0 c res c' hst hb hl
    · rw [processLoop_zero c hb] at hl
      cases hl
  | succ n ih =>
    intro c res c' hst hlen hl
    obtain ⟨bs, st, ln, v, lx⟩ := c
    simp only at hst hlen
    subst hst
    cases bs with
    | nil => exact loop_finish_operator (n + 1) _ res c' rfl rfl hl
    | cons x t =>
      rw [processLoop, if_neg (by simp)] at hl
      have hs1 : string_to_operator (v ++ [Char.ofNat x]) = none :=
        sto_length_none _ (by simp; omega)
      cases t with
      | nil =>
        have hstep : processStep ⟨[x], .Operator, ln, v, lx⟩ =
            .cont ⟨[], .Operator, ln, v ++ [Char.ofNat x], lx⟩ := by
          simp [processStep, popFront, hs1]
        rw [hstep] at hl
        exact ih _ res c' rfl (by simp; omega) hl
      | cons y t2 =>
        have hs2 : string_to_operator (v ++ [Char.ofNat x, Char.ofNat y]) =
            none := sto_length_none _ (by simp; omega)
        have hstep : processStep ⟨x :: y :: t2, .Operator, ln, v, lx⟩ =
            .cont ⟨y :: t2, .Operator, ln, v ++ [Char.ofNat x], lx⟩ := by
          simp [processStep, popFront, hs1, hs2, List.dropLast_concat]
        rw [hstep] at hl
        exact ih _ res c' rfl (by simp; omega) hl

/-- An `Operator` configuration whose non-empty accumulator matches
nothing, and whose next byte cannot complete a match either, can only end
in an error. -/
theorem opDead1 (fuel : Nat) (c : Config) (res : Except String (List Lexeme))
    (c' : Config) (hst : c.state = LexerState.Operator) (hv : c.value ≠ [])
    (hsv : string_to_operator c.value = none)
    (hext : ∀ x t, c.bytes = x :: t →
      string_to_operator (c.value ++ [Char.ofNat x]) = none)
    (hl : processLoop fuel c = some (res, c')) : ∃ e, res = .error e := by
  obtain ⟨bs, st, ln, v, lx⟩ := c
  simp only at hst hv hsv hext
  subst hst
  cases bs with
  | nil => exact loop_finish_operator fuel _ res c' rfl rfl hl
  | cons x t =>
    cases fuel with
    | zero =>
      rw [processLoop_zero _ (by simp)] at hl
      cases hl
    | succ n =>
      rw [processLoop, if_neg (by simp)] at hl
      have hvlen : 1 ≤ v.length := List.length_pos.mpr hv
      have hs1 : string_to_operator (v ++ [Char.ofNat x]) = none := hext x t rfl
      cases t with
      | nil =>
        have hstep : processStep ⟨[x], .Operator, ln, v, lx⟩ =
            .cont ⟨[], .Operator, ln, v ++ [Char.ofNat x], lx⟩ := by
          simp [processStep, popFront, hs1]
        rw [hstep] at hl
        exact loop_finish_operator n _ res c' rfl rfl hl
      | cons y t2 =>
        have hs2 : string_to_operator (v ++ [Char.ofNat x, Char.ofNat y]) =
            none := sto_length_none _ (by simp; omega)
        have hstep : processStep ⟨x :: y :: t2, .Operator, ln, v, lx⟩ =
            .cont ⟨y :: t2, .Operator, ln, v ++ [Char.ofNat x], lx⟩ := by
          simp [processStep, popFront, hs1, hs2, List.dropLast_concat]
        rw [hstep] at hl
        exact opDead2 n _ res c' rfl (by simp; omega) hl

/-- The loop `break`s only on a NUL byte seen in the `Overall` state. -/
theorem processStep_brk_bytes (c : Config) (h : processStep c = .brk) :
    ∃ t, c.bytes = 0 :: t ∧ c.state = LexerState.Overall := by
  obtain ⟨bs, st, ln, v, lx⟩ := c
  cases bs with
  | nil =>
    rw [processStep_nil _ rfl] at h
    cases h
  | cons b t =>
    cases st with
    | Overall =>
      simp only [processStep, List.head?_cons] at h
      split at h
      · cases h
      · split at h
        · cases h
        · split at h
          · cases h
          · split at h
            · rename_i hb0
              exact ⟨t, by rw [hb0], rfl⟩
            · split at h
              · split at h
                · cases h
                · cases h
              · cases h
    | Identifier =>
      simp only [processStep, List.head?_cons] at h
      repeat' split at h
      all_goals cases h
    | Operator =>
      simp only [processStep, List.head?_cons, popFront] at h
      repeat' split at h
      all_goals cases h
    | WholeNumber =>
      simp only [processStep, List.head?_cons] at h
      repeat' split at h
      all_goals cases h
    | Decimal =>
      simp only [processStep, List.head?_cons] at h
      repeat' split at h
      all_goals cases h
    | Exponentional =>
      simp only [processStep, List.head?_cons] at h
      repeat' split at h
      all_goals cases h
    | Literal =>
      simp only [processStep, List.head?_cons] at h
      cases h

/-- Decomposition of one continuing step: either the consumed prefix
contains no NUL byte, or the machine has just got stuck in the `Operator`
state (token `None`), from which only an error can follow. -/
theorem processStep_cont_consumed (c c2 : Config) (h : processStep c = .cont c2) :
    (∃ p, c.bytes = p ++ c2.bytes ∧ (0 : Nat) ∉ p) ∨
    (c2.state = LexerState.Operator ∧ c2.value ≠ [] ∧
     string_to_operator c2.value = none ∧
     (∀ x t, c2.bytes = x :: t →
       string_to_operator (c2.value ++ [Char.ofNat x]) = none)) := by
  obtain ⟨bs, st, ln, v, lx⟩ := c
  cases bs with
  | nil =>
    rw [processStep_nil _ rfl] at h
    cases h
  | cons b t =>
    cases st with
    | Overall =>
      simp only [processStep, List.head?_cons] at h
      split at h
      · rename_i hb10
        injection h with h2
        subst h2
        exact Or.inl ⟨[b], by simp, by simp [hb10]⟩
      · split at h
        · rename_i hws
          injection h with h2
          subst h2
          have hb' : b = 32 ∨ b = 9 := by
            simpa [is_whitespace] using hws
          refine Or.inl ⟨[b], by simp, by simp; omega⟩
        · split at h
          · injection h with h2
            subst h2
            exact Or.inl ⟨[], by simp, by simp⟩
          · split at h
            · cases h
            · split at h
              · split at h
                · injection h with h2
                  subst h2
                  exact Or.inl ⟨[], by simp, by simp⟩
                · injection h with h2
                  subst h2
                  exact Or.inl ⟨[], by simp, by simp⟩
              · injection h with h2
                subst h2
                exact Or.inl ⟨[], by simp, by simp⟩
    | Identifier =>
      simp only [processStep, List.head?_cons] at h
      split at h
      · rename_i hvalid
        injection h with h2
        subst h2
        have hb' : b ≠ 0 := by
          intro hb0
          subst hb0
          exact absurd hvalid (by decide)
        refine Or.inl ⟨[b], by simp, by simp; omega⟩
      · injection h with h2
        subst h2
        exact Or.inl ⟨[], by simp, by simp⟩
    | Operator =>
      simp only [processStep, List.head?_cons, popFront] at h
      cases t with
      | nil =>
        simp only [List.head?_nil] at h
        split at h
        · rename_i tok heq
          injection h with h2
          subst h2
          have hb' : b ≠ 0 := by
            intro hb0
            subst hb0
            rw [sto_append_nul v] at heq
            cases heq
          refine Or.inl ⟨[b], by simp, by simp; omega⟩
        · rename_i heq
          injection h with h2
          subst h2
          refine Or.inr ⟨rfl, by simp, heq, ?_⟩
          intro x t' hxt
          cases hxt
      | cons y t2 =>
        simp only [List.head?_cons] at h
        split at h
        · rename_i tok heq
          injection h with h2
          subst h2
          have hb' : b ≠ 0 := by
            intro hb0
            subst hb0
            rw [sto_append_nul2 v (Char.ofNat y)] at heq
            cases heq
          have hy' : y ≠ 0 := by
            intro hy0
            subst hy0
            rw [sto_append_nul (v ++ [Char.ofNat b])] at heq
            cases heq
          refine Or.inl ⟨[b, y], by simp, by simp; omega⟩
        · rename_i heqd
          split at h
          · rename_i tok heqs
            injection h with h2
            subst h2
            have hb' : b ≠ 0 := by
              intro hb0
              subst hb0
              rw [sto_append_nul v] at heqs
              cases heqs
            refine Or.inl ⟨[b], by simp, by simp; omega⟩
          · rename_i heqs
            injection h with h2
            subst h2
            refine Or.inr ⟨rfl, by simp [List.dropLast_concat], ?_, ?_⟩
            · rw [List.dropLast_concat]
              exact heqs
            · intro x t' hxt
              injection hxt with hx1 hx2
              subst hx1
              rw [List.dropLast_concat]
              exact heqd
    | WholeNumber =>
      simp only [processStep, List.head?_cons] at h
      split at h
      · rename_i hsign
        split at h
        · injection h with h2
          subst h2
          have hb' : b = 45 ∨ b = 43 := by
            simpa [decide_eq_true_eq] using hsign
          refine Or.inl ⟨[b], by simp, by simp; omega⟩
        · cases h
      · split at h
        · rename_i hdig
          injection h with h2
          subst h2
          have hb' : 48 ≤ b ∧ b < 57 := by
            simpa [decide_eq_true_eq] using hdig
          refine Or.inl ⟨[b], by simp, by simp; omega⟩
        · split at h
          · rename_i hdot
            injection h with h2
            subst h2
            exact Or.inl ⟨[b], by simp, by simp [hdot]⟩
          · split at h
            · rename_i heE
              have hb' : b = 101 ∨ b = 69 := by
                simpa [decide_eq_true_eq] using heE
              cases t with
              | nil =>
                simp only [List.tail_cons, List.head?_nil] at h
                injection h with h2
                subst h2
                refine Or.inl ⟨[b], by simp, by simp; omega⟩
              | cons s t2 =>
                simp only [List.tail_cons, List.head?_cons] at h
                split at h
                · rename_i hsgn
                  injection h with h2
                  subst h2
                  have hs' : s = 45 ∨ s = 43 := by
                    simpa [decide_eq_true_eq] using hsgn
                  refine Or.inl ⟨[b, s], by simp, by simp; omega⟩
                · injection h with h2
                  subst h2
                  refine Or.inl ⟨[b], by simp, by simp; omega⟩
            · injection h with h2
              subst h2
              exact Or.inl ⟨[], by simp, by simp⟩
    | Decimal =>
      simp only [processStep, List.head?_cons] at h
      split at h
      · rename_i hdig
        injection h with h2
        subst h2
        have hb' : 48 ≤ b ∧ b < 57 := by
          simpa [decide_eq_true_eq] using hdig
        refine Or.inl ⟨[b], by simp, by simp; omega⟩
      · split at h
        · rename_i heE
          have hb' : b = 101 ∨ b = 69 := by
            simpa [decide_eq_true_eq] using heE
          cases t with
          | nil =>
            simp only [List.tail_cons, List.head?_nil] at h
            injection h with h2
            subst h2
            refine Or.inl ⟨[b], by simp, by simp; omega⟩
          | cons s t2 =>
            simp only [List.tail_cons, List.head?_cons] at h
            split at h
            · rename_i hsgn
              injection h with h2
              subst h2
              have hs' : s = 45 ∨ s = 43 := by
                simpa [decide_eq_true_eq] using hsgn
              refine Or.inl ⟨[b, s], by simp, by simp; omega⟩
            · injection h with h2
              subst h2
              refine Or.inl ⟨[b], by simp, by simp; omega⟩
        · injection h with h2
          subst h2
          exact Or.inl ⟨[], by simp, by simp⟩
    | Exponentional =>
      simp only [processStep, List.head?_cons] at h
      split at h
      · rename_i hdig
        injection h with h2
        subst h2
        have hb' : 48 ≤ b ∧ b ≤ 57 := by
          simpa [decide_eq_true_eq] using hdig
        refine Or.inl ⟨[b], by simp, by simp; omega⟩
      · injection h with h2
        subst h2
        exact Or.inl ⟨[], by simp, by simp⟩
    | Literal =>
      simp only [processStep, List.head?_cons] at h
      cases h

/-- Any terminating run that returns `Ok` leaves a suffix of the original
byte source unconsumed; the consumed prefix contains no NUL byte, and the
remaining suffix is either empty or starts with the NUL byte the `Overall`
state broke on. -/
theorem loop_ok_decomposition : ∀ (fuel : Nat) (c : Config)
    (res : Except String (List Lexeme)) (c' : Config),
    processLoop fuel c = some (res, c') →
    ∀ lexs : List Lexeme, res = .ok lexs →
    ∃ p, c.bytes = p ++ c'.bytes ∧ (0 : Nat) ∉ p ∧
      (c'.bytes = [] ∨ ∃ t, c'.bytes = 0 :: t) := by
  intro fuel
  induction fuel with
  | zero =>
    intro c res c' hl lexs hres
    by_cases hb : c.bytes = []
    · rw [processLoop_nil _ _ hb] at hl
      injection hl with h2
      injection h2 with hr hc
      subst hc
      exact ⟨[], by simp, by simp, Or.inl hb⟩
    · rw [processLoop_zero c hb] at hl
      cases hl
  | succ n ih =>
    intro c res c' hl lexs hres
    by_cases hb : c.bytes = []
    · rw [processLoop_nil _ _ hb] at hl
      injection hl with h2
      injection h2 with hr hc
      subst hc
      exact ⟨[], by simp, by simp, Or.inl hb⟩
    · rw [processLoop, if_neg (by simpa using hb)] at hl
      cases hs : processStep c with
      | errRes e =>
        rw [hs] at hl
        injection hl with h2
        injection h2 with hr hc
        rw [← hr] at hres
        cases hres
      | brk =>
        rw [hs] at hl
        injection hl with h2
        injection h2 with hr hc
        subst hc
        obtain ⟨t0, hbt, -⟩ := processStep_brk_bytes c hs
        exact ⟨[], by simp, by simp, Or.inr ⟨t0, hbt⟩⟩
      | cont c2 =>
        rw [hs] at hl
        rcases processStep_cont_consumed c c2 hs with ⟨p, hp, hp0⟩ |
          ⟨hops, hopv, hopn, hopx⟩
        · obtain ⟨p2, hp2, hp20, hdisj⟩ := ih c2 res c' hl lexs hres
          refine ⟨p ++ p2, ?_, ?_, hdisj⟩
          · rw [hp, hp2, List.append_assoc]
          · simp only [List.mem_append, not_or]
            exact ⟨hp0, hp20⟩
        · obtain ⟨e, he⟩ := opDead1 n c2 res c' hops hopv hopn hopx hl
          rw [he] at hres
          cases hres

/-- Claim C10: whenever `process` returns `Ok`, scanning has consumed a
NUL-free prefix of the input and stopped: the remaining byte source is a
suffix that is either empty (input exhausted without a NUL) or starts with
the NUL sentinel the `Overall` state broke on, so that NUL and every byte
after it stay unconsumed and contribute no lexemes.  The input consisting
of a single NUL byte yields `Ok []` with the NUL still in the source. -/
theorem C10_ok_stops_at_first_nul :
    (∀ (fuel : Nat) (input : List Nat) (res : Except String (List Lexeme))
      (c' : Config), process fuel input = some (res, c') →
      ∀ lexs : List Lexeme, res = .ok lexs →
      ∃ p, input = p ++ c'.bytes ∧ (0 : Nat) ∉ p ∧
        (c'.bytes = [] ∨ ∃ t, c'.bytes = 0 :: t)) ∧
    process 1 [0] = some (.ok [], ⟨[0], .Overall, 1, [], []⟩) := by
  constructor
  · intro fuel input res c' h lexs hres
    exact loop_ok_decomposition fuel _ res c' h lexs hres
  · rfl

/-- Witness for C10 at the one-byte input `[0]`: the consumed prefix is
empty and the NUL byte remains in the source. -/
theorem C10_witness :
    ∃ p, ([0] : List Nat) = p ++ [0] ∧ (0 : Nat) ∉ p ∧
      (([0] : List Nat) = [] ∨ ∃ t, ([0] : List Nat) = 0 :: t) :=
  C10_ok_stops_at_first_nul.1 1 [0] (.ok []) ⟨[0], .Overall, 1, [], []⟩ rfl [] rfl
